import Mathlib

/-!
Verification development for the firmware-wars-api PDF publish pipeline.

The definitions below are a shallow embedding of the core of the repository:

* the marker regex `MARKER_RE = /FWMARK-(\w+?)(?:-([A-Z0-9_.]+))?(?=\s|$)/g`
  and `extractSectionMap` (publish script, part_003 lines 135-171),
  modelled as an explicit backtracking matcher with the same lazy/greedy
  alternation order as the JS regex engine, plus a left-to-right scanner
  mirroring `String.prototype.matchAll` (advance by one on failure, jump
  to the match end on success);
* `getLabelForPage` (part_003 lines 177-182);
* the header/footer overlay loop (part_003 lines 243-273), with page
  coordinates idealised as rationals and the pdf-lib font-width oracle
  `font.widthOfTextAtSize` taken as a function parameter;
* the two-pass pagination driver around it (part_003 lines 200-246);
* `bumpVersion` / `versionString` / the R2 object key (both in
  src/index.ts lines 26-38 and part_003 lines 101-109);
* the storage ordering of the publish tail (part_003 lines 282-303 and
  the worker POST /generate handler, src/index.ts lines 146-195), with
  the external blob/KV collaborators modelled by boolean outcome
  parameters and the performed durable writes recorded as an event trace;
* `cmToPt` (part_003 line 31), with JS `parseFloat` modelled over the
  rationals (decimal literals with optional sign, fraction and exponent;
  a NaN result is rendered as `none`; the `Infinity` literal, which is
  not representable in the rationals and never used for lengths, is left
  out of the model and out of every theorem's scope).

JS floating-point arithmetic is idealised as exact rational arithmetic
throughout.
-/

/-! ### Character classes of the marker regex and of JS lexical syntax -/

/-- JS `\w`: ASCII letters, digits and underscore (part of `MARKER_RE`). -/
def isWordChar (c : Char) : Bool :=
  (65 ≤ c.toNat && c.toNat ≤ 90) || (97 ≤ c.toNat && c.toNat ≤ 122) ||
  (48 ≤ c.toNat && c.toNat ≤ 57) || c.toNat = 95

/-- Label class `[A-Z0-9_.]` of `MARKER_RE`. -/
def isLabelChar (c : Char) : Bool :=
  (65 ≤ c.toNat && c.toNat ≤ 90) || (48 ≤ c.toNat && c.toNat ≤ 57) ||
  c.toNat = 95 || c.toNat = 46

/-- JS `\s`: the WhiteSpace and LineTerminator code points of ECMA-262. -/
def isJsSpace (c : Char) : Bool :=
  c.toNat = 9 || c.toNat = 10 || c.toNat = 11 || c.toNat = 12 ||
  c.toNat = 13 || c.toNat = 32 || c.toNat = 160 || c.toNat = 5760 ||
  (8192 ≤ c.toNat && c.toNat ≤ 8202) || c.toNat = 8232 || c.toNat = 8233 ||
  c.toNat = 8239 || c.toNat = 8287 || c.toNat = 12288 || c.toNat = 65279

/-- ASCII digit class, used by the `parseFloat` model. -/
def isDigitCh (c : Char) : Bool :=
  48 ≤ c.toNat && c.toNat ≤ 57

/-- Lookahead `(?=\s|$)` of `MARKER_RE`: end of input or a whitespace char. -/
def boundary : List Char → Bool
  | [] => true
  | c :: _ => isJsSpace c

/-- Longest-run splitter (our own `span`, kept self-contained). -/
def spanP (p : Char → Bool) : List Char → List Char × List Char
  | [] => ([], [])
  | c :: cs =>
    if p c then
      let s := spanP p cs
      (c :: s.1, s.2)
    else ([], c :: cs)

theorem isLabelChar_not_space {c : Char} (h : isLabelChar c = true) :
    isJsSpace c = false := by
  simp only [isLabelChar, Bool.or_eq_true, Bool.and_eq_true, decide_eq_true_eq] at h
  by_contra hs
  rw [Bool.not_eq_false] at hs
  simp only [isJsSpace, Bool.or_eq_true, Bool.and_eq_true, decide_eq_true_eq] at hs
  omega

theorem isWordChar_not_space {c : Char} (h : isWordChar c = true) :
    isJsSpace c = false := by
  simp only [isWordChar, Bool.or_eq_true, Bool.and_eq_true, decide_eq_true_eq] at h
  by_contra hs
  rw [Bool.not_eq_false] at hs
  simp only [isJsSpace, Bool.or_eq_true, Bool.and_eq_true, decide_eq_true_eq] at hs
  omega

theorem isDigitCh_isWordChar {c : Char} (h : isDigitCh c = true) :
    isWordChar c = true := by
  simp only [isDigitCh, Bool.and_eq_true, decide_eq_true_eq] at h
  simp only [isWordChar, Bool.or_eq_true, Bool.and_eq_true, decide_eq_true_eq]
  omega

theorem spanP_append_eq (p : Char → Bool) (a b : List Char)
    (ha : ∀ c ∈ a, p c = true) (hb : spanP p b = ([], b)) :
    spanP p (a ++ b) = (a, b) := by
  induction a with
  | nil => simpa using hb
  | cons c cs ih =>
    have hc : p c = true := ha c (by simp)
    have ih' := ih (fun d hd => ha d (by simp [hd]))
    simp [spanP, hc, ih']

theorem spanP_all (p : Char → Bool) :
    ∀ cs : List Char, ∀ c ∈ (spanP p cs).1, p c = true := by
  intro cs
  induction cs with
  | nil => simp [spanP]
  | cons c cs ih =>
    by_cases hc : p c = true
    · simp only [spanP, hc, if_pos]
      intro d hd
      rcases List.mem_cons.mp hd with h | h
      · exact h ▸ hc
      · exact ih d h
    · simp [spanP, hc]

theorem spanP_eq_append (p : Char → Bool) (cs : List Char) :
    (spanP p cs).1 ++ (spanP p cs).2 = cs := by
  induction cs with
  | nil => simp [spanP]
  | cons c cs ih =>
    by_cases hc : p c = true
    · simp [spanP, hc, ih]
    · simp [spanP, hc]

theorem spanP_nil_of_not (p : Char → Bool) {c : Char} (cs : List Char)
    (hc : p c = false) : spanP p (c :: cs) = ([], c :: cs) := by
  simp [spanP, hc]

/-! ### The backtracking matcher for `MARKER_RE` (after the literal `FWMARK-`)

The JS engine tries, in order: the lazy `\w+?` at length 1, 2, ...; for
each id length, the optional group present (with the greedy label run,
backtracking from the longest), then absent; then the lookahead. -/

/-- Greedy label run with backtracking: the first argument is the reversed
run consumed so far, chars are given back one by one until the lookahead
holds. Requires at least one label char. -/
def tryLabelSplit : List Char → List Char → Option (List Char × List Char)
  | [], _ => none
  | c :: pre, rest =>
    if boundary rest then some ((c :: pre).reverse, rest)
    else tryLabelSplit pre (c :: rest)

/-- Attempt of `(?:-([A-Z0-9_.]+))?(?=\s|$)` at the current position:
group present is preferred (greedy optional), then group absent, each
followed by the lookahead. -/
def tryGroup (rest : List Char) : Option (Option String × List Char) :=
  match rest with
  | [] => if boundary [] then some (none, []) else none
  | c :: rest2 =>
    if c = '-' then
      let sp := spanP isLabelChar rest2
      (match tryLabelSplit sp.1.reverse sp.2 with
       | some lr => some (some lr.1.asString, lr.2)
       | none => if boundary (c :: rest2) then some (none, c :: rest2) else none)
    else if boundary (c :: rest2) then some (none, c :: rest2) else none

/-- Lazy `\w+?` loop: extend the id one word char at a time, trying the
rest of the pattern before each extension. The first argument is the
reversed id consumed so far. -/
def idLoop : List Char → List Char → Option (String × Option String × List Char)
  | _, [] => none
  | idRev, c :: rest =>
    if isWordChar c then
      match tryGroup rest with
      | some lr => some (((c :: idRev).reverse).asString, lr.1, lr.2)
      | none => idLoop (c :: idRev) rest
    else none

/-- Match of `MARKER_RE` minus its literal head, on the text that follows
`FWMARK-`; returns the captured id, the optional captured label, and the
unconsumed remainder of the input. -/
def matchMark (cs : List Char) : Option (String × Option String × List Char) :=
  idLoop [] cs

/-! ### Declarative matcher (the spec's wording of the token grammar)

Modelled from the spec: a marker token is `FWMARK-` followed by an id,
optionally followed by `-` and a label drawn from uppercase letters,
digits, dot and underscore, terminated by whitespace or end of string.
The id class is a parameter: the spec says alphanumeric, the code's `\w`
also admits underscore. -/

def specMatchAux (idP : Char → Bool) (cs : List Char) :
    Option (String × Option String × List Char) :=
  let sp := spanP idP cs
  if sp.1.isEmpty then none
  else if boundary sp.2 then some (sp.1.asString, none, sp.2)
  else
    match sp.2 with
    | [] => none
    | c :: rest2 =>
      if c = '-' then
        let lp := spanP isLabelChar rest2
        if !lp.1.isEmpty && boundary lp.2 then
          some (sp.1.asString, some lp.1.asString, lp.2)
        else none
      else none

/-- Strictly alphanumeric id class, the spec's literal wording. -/
def isAlnumChar (c : Char) : Bool :=
  (65 ≤ c.toNat && c.toNat ≤ 90) || (97 ≤ c.toNat && c.toNat ≤ 122) ||
  (48 ≤ c.toNat && c.toNat ≤ 57)

/-! ### Equivalence of the backtracking matcher and the declarative grammar -/

theorem tryLabelSplit_spec (pre : List Char) :
    ∀ rest, (∀ c ∈ pre, isLabelChar c = true) →
      tryLabelSplit pre rest =
        if pre ≠ [] ∧ boundary rest = true then some (pre.reverse, rest)
        else none := by
  induction pre with
  | nil => intro rest _; simp [tryLabelSplit]
  | cons c pre ih =>
    intro rest h
    have hc : isLabelChar c = true := h c (by simp)
    by_cases hb : boundary rest = true
    · simp [tryLabelSplit, hb]
    · have hb' : boundary (c :: rest) = false := by
        simp [boundary, isLabelChar_not_space hc]
      have := ih (c :: rest) (fun d hd => h d (by simp [hd]))
      simp only [tryLabelSplit, if_neg hb, this, hb']
      simp [hb]

theorem tryGroup_nil : tryGroup [] = some (none, []) := rfl

theorem tryGroup_word_none {c : Char} (h : isWordChar c = true) (l : List Char) :
    tryGroup (c :: l) = none := by
  have hc : ¬ c = '-' := by
    intro h'; subst h'; exact absurd h (by decide)
  have hsp : isJsSpace c = false := isWordChar_not_space h
  simp [tryGroup, hc, boundary, hsp]

theorem tryGroup_eq_cons (c : Char) (t : List Char) :
    tryGroup (c :: t) =
      if boundary (c :: t) = true then some ((none : Option String), c :: t)
      else if c = '-' then
        if !(spanP isLabelChar t).1.isEmpty &&
            boundary (spanP isLabelChar t).2 then
          some (some (spanP isLabelChar t).1.asString, (spanP isLabelChar t).2)
        else none
      else none := by
  by_cases hc : c = '-'
  · subst hc
    have hbm : boundary ('-' :: t) = false := by
      have h45 : isJsSpace '-' = false := by decide
      simp [boundary, h45]
    rw [if_neg (by simp [hbm])]
    have hall : ∀ d ∈ (spanP isLabelChar t).1.reverse, isLabelChar d = true :=
      fun d hd => spanP_all isLabelChar t d (List.mem_reverse.mp hd)
    simp only [tryGroup, if_pos rfl]
    rw [tryLabelSplit_spec _ _ hall]
    cases hsp : (spanP isLabelChar t).1 with
    | nil => simp [hsp, hbm]
    | cons a as =>
      by_cases hb2 : boundary (spanP isLabelChar t).2 = true
      · simp [hsp, hb2]
      · simp [hsp, hb2, hbm]
  · by_cases hb : boundary (c :: t) = true
    · simp [tryGroup, hc, hb]
    · simp [tryGroup, hc, hb]

theorem idLoop_spec (cs : List Char) : ∀ idRev : List Char,
    idLoop idRev cs =
      if (spanP isWordChar cs).1.isEmpty then none
      else
        match tryGroup (spanP isWordChar cs).2 with
        | some lr =>
          some ((idRev.reverse ++ (spanP isWordChar cs).1).asString, lr.1, lr.2)
        | none => none := by
  induction cs with
  | nil => intro idRev; simp [idLoop, spanP]
  | cons c rest ih =>
    intro idRev
    by_cases hw : isWordChar c = true
    · have hspan : spanP isWordChar (c :: rest) =
          (c :: (spanP isWordChar rest).1, (spanP isWordChar rest).2) := by
        simp [spanP, hw]
      rw [hspan]
      cases rest with
      | nil => simp [idLoop, hw, spanP, tryGroup_nil]
      | cons d rest' =>
        by_cases hd : isWordChar d = true
        · have hg : tryGroup (d :: rest') = none := tryGroup_word_none hd rest'
          have hspan2 : spanP isWordChar (d :: rest') =
              (d :: (spanP isWordChar rest').1, (spanP isWordChar rest').2) := by
            simp [spanP, hd]
          have hstep : idLoop idRev (c :: d :: rest') = idLoop (c :: idRev) (d :: rest') := by
            simp [idLoop, hw, hg]
          rw [hstep, ih (c :: idRev), hspan2]
          simp [List.reverse_cons]
        · have hd' : isWordChar d = false := by
            exact Bool.not_eq_true _ ▸ eq_false_of_ne_true hd
          have hspan2 : spanP isWordChar (d :: rest') = ([], d :: rest') :=
            spanP_nil_of_not _ _ hd'
          rw [hspan2]
          cases hg : tryGroup (d :: rest') with
          | some lr => simp [idLoop, hw, hg]
          | none =>
            have hstep : idLoop idRev (c :: d :: rest') = idLoop (c :: idRev) (d :: rest') := by
              simp [idLoop, hw, hg]
            rw [hstep, ih (c :: idRev), hspan2]
            simp [hg]
    · have hw' : isWordChar c = false := by
        exact Bool.not_eq_true _ ▸ eq_false_of_ne_true hw
      have hspan : spanP isWordChar (c :: rest) = ([], c :: rest) :=
        spanP_nil_of_not _ _ hw'
      simp [idLoop, hw', hspan]

theorem matchMark_eq (cs : List Char) : matchMark cs = specMatchAux isWordChar cs := by
  rw [matchMark, idLoop_spec cs [], specMatchAux]
  by_cases he : (spanP isWordChar cs).1.isEmpty
  · simp [he]
  · cases hs2 : (spanP isWordChar cs).2 with
    | nil => simp [he, hs2, tryGroup_nil, boundary]
    | cons c t =>
      rw [tryGroup_eq_cons]
      by_cases hb : boundary (c :: t) = true
      · simp [he, hs2, hb]
      · by_cases hc : c = '-'
        · subst hc
          by_cases hcond : (!(spanP isLabelChar t).1.isEmpty &&
              boundary (spanP isLabelChar t).2) = true
          · simp [he, hs2, hb, hcond]
          · simp [he, hs2, hb, hcond]
        · simp [he, hs2, hb, hc]

theorem matchMark_funext : matchMark = specMatchAux isWordChar :=
  funext matchMark_eq

/-! ### The page scanner (`String.prototype.matchAll` over `MARKER_RE`)

The scanner walks the text left to right; at a position where the literal
`FWMARK-` occurs it attempts the rest of the pattern, and on success jumps
to the end of the match (the regex lastIndex), otherwise it advances one
character. The fuel argument bounds the recursion; one unit is spent per
step and each step strictly shortens the input, so an initial fuel of the
input length never runs out (see `scanGo_fuel_irrelevant`). -/

/-- Literal head of `MARKER_RE`. -/
def markTok : List Char := "FWMARK-".toList

/-- Decides whether the first argument is an initial run of the second. -/
def startsList : List Char → List Char → Bool
  | [], _ => true
  | _ :: _, [] => false
  | p :: ps, c :: cs => p == c && startsList ps cs

/-- One scanner, parameterised by the matcher applied after `FWMARK-`. -/
def scanGo (idMatch : List Char → Option (String × Option String × List Char)) :
    Nat → List Char → List (String × Option String)
  | 0, _ => []
  | _ + 1, [] => []
  | fuel + 1, c :: rest =>
    if startsList markTok (c :: rest) then
      match idMatch ((c :: rest).drop markTok.length) with
      | some r => (r.1, r.2.1) :: scanGo idMatch fuel r.2.2
      | none => scanGo idMatch fuel rest
    else scanGo idMatch fuel rest

/-- All `MARKER_RE` matches of one page text, in order: captured id and
optional captured label. -/
def scanMarkers (cs : List Char) : List (String × Option String) :=
  scanGo matchMark cs.length cs

/-- Spec-side scan with the declarative token grammar over id class `idP`. -/
def specScan (idP : Char → Bool) (cs : List Char) : List (String × Option String) :=
  scanGo (specMatchAux idP) cs.length cs

theorem scanMarkers_eq_specScan (cs : List Char) :
    scanMarkers cs = specScan isWordChar cs := by
  rw [scanMarkers, specScan, matchMark_funext]

/-! ### Section markers and `extractSectionMap` -/

/-- Entry of the Section Map: marker id, resolved display label, and the
1-indexed page on which the marker occurs. -/
structure SectionMarker where
  id : String
  label : String
  startPage : Nat
deriving Repr, DecidableEq

/-- Fixed display title used for the table-of-contents marker id. -/
def tocTitle : String := "ÍNDICE DE CONTENIDOS"

/-- Label resolution of `extractSectionMap`: the captured label if present,
else the table-of-contents title for id `TOC`, else the id itself. -/
def resolveLabel (id : String) (lab : Option String) : String :=
  lab.getD (if id = "TOC" then tocTitle else id)

/-- Entries contributed by one page of text (page number `pn`). -/
def pageEntries (pn : Nat) (text : String) : List SectionMarker :=
  (scanMarkers text.toList).map (fun r => ⟨r.1, resolveLabel r.1 r.2, pn⟩)

/-- Entries of all pages in scan order, first page numbered `pn`. -/
def rawEntriesFrom (pn : Nat) : List String → List SectionMarker
  | [] => []
  | t :: ts => pageEntries pn t ++ rawEntriesFrom (pn + 1) ts

/-- Entries of all pages in scan order (pages are 1-indexed). -/
def rawEntries (pages : List String) : List SectionMarker :=
  rawEntriesFrom 1 pages

/-- Stable insertion: place `m` before the first element whose `startPage`
is not smaller, like the stable `Array.prototype.sort` with comparator
`a.startPage - b.startPage` keeps equal keys in discovery order. -/
def insertByStart (m : SectionMarker) : List SectionMarker → List SectionMarker
  | [] => [m]
  | x :: xs =>
    if m.startPage ≤ x.startPage then m :: x :: xs
    else x :: insertByStart m xs

/-- Stable sort ascending by `startPage`. -/
def sortByStart : List SectionMarker → List SectionMarker
  | [] => []
  | x :: xs => insertByStart x (sortByStart xs)

/-- Marker Extractor: scan every page text for `MARKER_RE` occurrences,
resolve display labels, record the 1-indexed page, and stable-sort by
`startPage` (part_003 lines 142-171, given the per-page texts that the
pdf-parse collaborator extracts from the buffer). -/
def extractSectionMap (pages : List String) : List SectionMarker :=
  sortByStart (rawEntries pages)

/-- Spec-side marker extraction over id class `idP`, same page accounting. -/
def specPageEntries (idP : Char → Bool) (pn : Nat) (text : String) :
    List SectionMarker :=
  (specScan idP text.toList).map (fun r => ⟨r.1, resolveLabel r.1 r.2, pn⟩)

def specRawFrom (idP : Char → Bool) (pn : Nat) : List String → List SectionMarker
  | [] => []
  | t :: ts => specPageEntries idP pn t ++ specRawFrom idP (pn + 1) ts

/-- Marker extraction as the spec words it, over id class `idP`. -/
def specExtract (idP : Char → Bool) (pages : List String) : List SectionMarker :=
  sortByStart (specRawFrom idP 1 pages)

/-! ### `getLabelForPage` (part_003 lines 177-182)

The source scans the map from the last entry down and returns the label of
the first entry whose `startPage` is at most the page number; the
recursion below prefers the result found in the tail, which is exactly
that reverse-order scan. -/

def getLabelForPage (sectionMap : List SectionMarker) (pageNum : Nat) :
    Option String :=
  match sectionMap with
  | [] => none
  | m :: rest =>
    match getLabelForPage rest pageNum with
    | some l => some l
    | none => if m.startPage ≤ pageNum then some m.label else none

/-! ### Fuel adequacy of the scanner -/

theorem specMatchAux_len (idP : Char → Bool) (cs : List Char)
    (r : String × Option String × List Char) (h : specMatchAux idP cs = some r) :
    r.2.2.length ≤ cs.length := by
  unfold specMatchAux at h
  by_cases he : (spanP idP cs).1.isEmpty
  · simp [he] at h
  · have hsplit : (spanP idP cs).1.length + (spanP idP cs).2.length = cs.length := by
      have := spanP_eq_append idP cs
      calc (spanP idP cs).1.length + (spanP idP cs).2.length
          = ((spanP idP cs).1 ++ (spanP idP cs).2).length := (List.length_append ..).symm
        _ = cs.length := by rw [this]
    by_cases hb : boundary (spanP idP cs).2 = true
    · simp only [he, if_false, hb, if_true, Bool.false_eq_true] at h
      cases h
      show (spanP idP cs).2.length ≤ cs.length
      omega
    · simp only [he, hb, if_false, Bool.false_eq_true] at h
      cases hs2 : (spanP idP cs).2 with
      | nil => rw [hs2] at h; simp at h
      | cons c t =>
        rw [hs2] at h
        by_cases hc : c = '-'
        · simp only [hc, if_pos] at h
          by_cases hcond : (!(spanP isLabelChar t).1.isEmpty &&
              boundary (spanP isLabelChar t).2) = true
          · simp only [hcond, if_true] at h
            cases h
            have hlab : (spanP isLabelChar t).1.length + (spanP isLabelChar t).2.length
                = t.length := by
              have := spanP_eq_append isLabelChar t
              calc (spanP isLabelChar t).1.length + (spanP isLabelChar t).2.length
                  = ((spanP isLabelChar t).1 ++ (spanP isLabelChar t).2).length :=
                    (List.length_append ..).symm
                _ = t.length := by rw [this]
            have hlen2 : (spanP idP cs).2.length = t.length + 1 := by
              rw [hs2]; simp
            show (spanP isLabelChar t).2.length ≤ cs.length
            omega
          · simp [hcond] at h
        · simp [hc] at h

theorem matchMark_len (cs : List Char) (r : String × Option String × List Char)
    (h : matchMark cs = some r) : r.2.2.length ≤ cs.length :=
  specMatchAux_len isWordChar cs r (matchMark_eq cs ▸ h)

theorem scanGo_fuel_irrelevant
    (idMatch : List Char → Option (String × Option String × List Char))
    (hm : ∀ cs r, idMatch cs = some r → r.2.2.length ≤ cs.length) :
    ∀ f g cs, cs.length ≤ f → cs.length ≤ g →
      scanGo idMatch f cs = scanGo idMatch g cs := by
  intro f
  induction f with
  | zero =>
    intro g cs hf _
    have : cs = [] := List.length_eq_zero.mp (Nat.le_zero.mp hf)
    subst this
    cases g <;> rfl
  | succ f ih =>
    intro g cs hf hg
    cases cs with
    | nil => cases g <;> rfl
    | cons c rest =>
      cases g with
      | zero => simp at hg
      | succ g =>
        have hlen : rest.length ≤ f := by simpa using hf
        have hlen' : rest.length ≤ g := by simpa using hg
        show scanGo idMatch (f + 1) (c :: rest) = scanGo idMatch (g + 1) (c :: rest)
        unfold scanGo
        by_cases hs : startsList markTok (c :: rest) = true
        · rw [if_pos hs, if_pos hs]
          cases hr : idMatch ((c :: rest).drop markTok.length) with
          | none => exact ih g rest hlen hlen'
          | some r =>
            have hr2 : r.2.2.length ≤ ((c :: rest).drop markTok.length).length :=
              hm _ _ hr
            have hdl : ((c :: rest).drop markTok.length).length ≤ rest.length := by
              have h7 : markTok.length = 7 := rfl
              have hcc : (c :: rest).length = rest.length + 1 := by simp
              rw [List.length_drop, h7, hcc]
              omega
            have h1 : r.2.2.length ≤ f := le_trans (le_trans hr2 hdl) hlen
            have h2 : r.2.2.length ≤ g := le_trans (le_trans hr2 hdl) hlen'
            show (r.1, r.2.1) :: scanGo idMatch f r.2.2
                = (r.1, r.2.1) :: scanGo idMatch g r.2.2
            exact congrArg _ (ih g r.2.2 h1 h2)
        · rw [if_neg hs, if_neg hs]
          exact ih g rest hlen hlen'

/-! ### Sortedness of the extracted map -/

theorem mem_pageEntries_startPage {m : SectionMarker} {pn : Nat} {t : String}
    (h : m ∈ pageEntries pn t) : m.startPage = pn := by
  simp only [pageEntries, List.mem_map] at h
  obtain ⟨r, _, rfl⟩ := h
  rfl

theorem mem_rawEntriesFrom_ge {m : SectionMarker} :
    ∀ {pn : Nat} {ts : List String}, m ∈ rawEntriesFrom pn ts → pn ≤ m.startPage := by
  intro pn ts
  induction ts generalizing pn with
  | nil => intro h; simp [rawEntriesFrom] at h
  | cons t ts ih =>
    intro h
    rcases List.mem_append.mp h with h | h
    · exact le_of_eq (mem_pageEntries_startPage h).symm
    · exact le_trans (Nat.le_succ pn) (ih h)

theorem rawEntriesFrom_pairwise (pn : Nat) (ts : List String) :
    List.Pairwise (fun a b => a.startPage ≤ b.startPage) (rawEntriesFrom pn ts) := by
  induction ts generalizing pn with
  | nil => simp [rawEntriesFrom]
  | cons t ts ih =>
    rw [rawEntriesFrom, List.pairwise_append]
    refine ⟨?_, ih (pn + 1), ?_⟩
    · exact List.pairwise_of_forall_mem_list (fun a ha b hb => by
        rw [mem_pageEntries_startPage ha, mem_pageEntries_startPage hb])
    · intro a ha b hb
      rw [mem_pageEntries_startPage ha]
      exact le_trans (Nat.le_succ pn) (mem_rawEntriesFrom_ge hb)

theorem sortByStart_sorted_id :
    ∀ l : List SectionMarker,
      List.Pairwise (fun a b => a.startPage ≤ b.startPage) l → sortByStart l = l := by
  intro l
  induction l with
  | nil => intro _; rfl
  | cons x xs ih =>
    intro h
    rw [List.pairwise_cons] at h
    rw [sortByStart, ih h.2]
    cases xs with
    | nil => rfl
    | cons y ys =>
      rw [insertByStart, if_pos (h.1 y (by simp))]

theorem extractSectionMap_eq_raw (pages : List String) :
    extractSectionMap pages = rawEntries pages :=
  sortByStart_sorted_id _ (rawEntriesFrom_pairwise 1 pages)

/-! ### Header/footer overlay (part_003 lines 229-273)

Coordinates are rationals; colors are the rgb triples the script computes
once from the hex config before the loop. The pdf-lib width oracle
`font.widthOfTextAtSize` is a parameter `widthOf`. A page carries its
size and its accumulated drawing operations; the overlay only appends. -/

/-- One pdf-lib drawing operation issued by the overlay loop. -/
inductive DrawOp where
  | text (s : String) (x y size : ℚ) (color : ℚ × ℚ × ℚ)
  | line (x1 y1 x2 y2 : ℚ) (thickness : ℚ) (color : ℚ × ℚ × ℚ)
deriving Repr, DecidableEq

/-- Layout values the overlay loop reads: the margins and the page-number
offset already converted to points, the font sizes, the section label
text, and the precomputed colors. -/
structure OverlayCfg where
  topMarginPt : ℚ
  bottomMarginPt : ℚ
  sideMarginPt : ℚ
  yPnPt : ℚ
  hFontSize : ℚ
  pnFontSize : ℚ
  sectionPref : String
  textColor : ℚ × ℚ × ℚ
  borderColor : ℚ × ℚ × ℚ
  pnColor : ℚ × ℚ × ℚ
deriving Repr, DecidableEq

/-- Drawing operations the overlay issues for one page of size `W × H`
with 1-indexed number `pageNum`; the empty list when `getLabelForPage`
finds no label (the cover guard, part_003 line 246). -/
def overlayPage (cfg : OverlayCfg) (widthOf : String → ℚ → ℚ) (version : String)
    (sectionMap : List SectionMarker) (W H : ℚ) (pageNum : Nat) : List DrawOp :=
  match getLabelForPage sectionMap pageNum with
  | none => []
  | some label =>
    let isRecto := pageNum % 2 == 1
    let headerLineY := H - cfg.topMarginPt
    let hTextY := headerLineY + (cfg.topMarginPt - cfg.hFontSize) / 2
    let sectionText := cfg.sectionPref ++ label
    let versionText := "v" ++ version
    let sectionW := widthOf sectionText cfg.hFontSize
    let versionW := widthOf versionText cfg.hFontSize
    let pnText := toString pageNum
    let pnW := widthOf pnText cfg.pnFontSize
    (if isRecto then
      [DrawOp.text sectionText (W - cfg.sideMarginPt - sectionW) hTextY
          cfg.hFontSize cfg.textColor,
        DrawOp.text versionText cfg.sideMarginPt hTextY cfg.hFontSize cfg.textColor,
        DrawOp.text pnText (W - cfg.sideMarginPt - pnW) cfg.yPnPt
          cfg.pnFontSize cfg.pnColor]
    else
      [DrawOp.text sectionText cfg.sideMarginPt hTextY cfg.hFontSize cfg.textColor,
        DrawOp.text versionText (W - cfg.sideMarginPt - versionW) hTextY
          cfg.hFontSize cfg.textColor,
        DrawOp.text pnText cfg.sideMarginPt cfg.yPnPt cfg.pnFontSize cfg.pnColor])
    ++ [DrawOp.line 0 headerLineY W headerLineY (3 / 4) cfg.borderColor,
        DrawOp.line 0 cfg.bottomMarginPt W cfg.bottomMarginPt (3 / 4) cfg.borderColor]

/-- Rendered page: fixed size plus accumulated drawing operations. -/
structure Page where
  width : ℚ
  height : ℚ
  ops : List DrawOp
deriving Repr, DecidableEq

/-- Overlay applied to one page: pdf-lib only appends draw operations. -/
def applyOverlayToPage (cfg : OverlayCfg) (widthOf : String → ℚ → ℚ)
    (version : String) (sectionMap : List SectionMarker) (pageNum : Nat)
    (pg : Page) : Page :=
  { pg with
    ops := pg.ops ++ overlayPage cfg widthOf version sectionMap pg.width pg.height pageNum }

/-- Overlay over a page buffer, numbering pages from `pn` upward. -/
def overlayDocFrom (cfg : OverlayCfg) (widthOf : String → ℚ → ℚ)
    (version : String) (sectionMap : List SectionMarker) (pn : Nat) :
    List Page → List Page
  | [] => []
  | p :: ps =>
    applyOverlayToPage cfg widthOf version sectionMap pn p ::
      overlayDocFrom cfg widthOf version sectionMap (pn + 1) ps

/-- Overlay over the whole buffer (`forEach` with `pageNum = i + 1`). -/
def overlayDoc (cfg : OverlayCfg) (widthOf : String → ℚ → ℚ) (version : String)
    (sectionMap : List SectionMarker) (pages : List Page) : List Page :=
  overlayDocFrom cfg widthOf version sectionMap 1 pages

/-- The text operations of a list of draw operations, as text and x pairs. -/
def textXs (ops : List DrawOp) : List (String × ℚ) :=
  ops.filterMap (fun op =>
    match op with
    | DrawOp.text s x _ _ _ => some (s, x)
    | DrawOp.line .. => none)

/-! ### Two-pass pagination driver (part_003 lines 184-246)

The render collaborator is external: each pass's output (a page buffer
plus the per-page text the parse collaborator extracts from it) is an
input of the model. Pass 2 renders the source document after page-number
injection; the driver compares the page counts, warns without aborting on
a mismatch, and overlays buffer 2 with the map extracted from pass 1. -/

structure RenderOut where
  pages : List Page
  texts : List String
deriving Repr, DecidableEq

structure PipeResult where
  warned : Bool
  sectionMap : List SectionMarker
  final : List Page
deriving Repr, DecidableEq

/-- Pagination driver: extract the Section Map from the pass-1 text,
compare page counts (warning only), then overlay the pass-2 buffer with
the pass-1 map. -/
def runPipeline (cfg : OverlayCfg) (widthOf : String → ℚ → ℚ) (version : String)
    (pass1 pass2 : RenderOut) : PipeResult :=
  let sectionMap := extractSectionMap pass1.texts
  let pass1Pages := pass1.pages.length
  let pass2Pages := pass2.pages.length
  { warned := pass1Pages != pass2Pages
    sectionMap := sectionMap
    final := overlayDoc cfg widthOf version sectionMap pass2.pages }

/-! ### Version arithmetic and the publish tail -/

/-- Semantic version counter persisted in the KV store. -/
structure VersionMeta where
  major : Nat
  minor : Nat
  patch : Nat
deriving Repr, DecidableEq

/-- Version bump (src/index.ts lines 26-30 and part_003 lines 101-105):
any bump value other than `major` and `minor` falls through to the patch
increment. -/
def bumpVersion (v : VersionMeta) (bump : String) : VersionMeta :=
  if bump = "major" then ⟨v.major + 1, 0, 0⟩
  else if bump = "minor" then ⟨v.major, v.minor + 1, 0⟩
  else ⟨v.major, v.minor, v.patch + 1⟩

/-- Version string `major.minor.patch`. -/
def verString (v : VersionMeta) : String :=
  toString v.major ++ "." ++ toString v.minor ++ "." ++ toString v.patch

/-- R2 object key of a published manual. -/
def r2Key (version : String) : String :=
  "manual-v" ++ version ++ ".pdf"

/-- Boundary validation both callers perform before any work:
`['major','minor','patch'].includes(bump)`. -/
def validBump (b : String) : Bool :=
  b = "major" || b = "minor" || b = "patch"

/-- Durable external writes a publish run performs, in order. -/
inductive StoreEv where
  | blobPut (key : String)
  | versionPut (v : VersionMeta)
deriving Repr, DecidableEq

/-- Publish tail of the script (part_003 lines 282-303): upload to R2 via
wrangler; a non-zero exit aborts with failure before the KV write; only
then the KV version write. `blobOk` and `kvOk` are the collaborator
outcomes; the first component lists the durable writes performed, the
second is overall success. -/
def scriptPublishTail (version : String) (next : VersionMeta)
    (blobOk kvOk : Bool) : List StoreEv × Bool :=
  if !blobOk then ([], false)
  else if !kvOk then ([StoreEv.blobPut (r2Key version)], false)
  else ([StoreEv.blobPut (r2Key version), StoreEv.versionPut next], true)

/-- Worker POST /generate (src/index.ts lines 146-195): auth check, bump
validation, PDF generation (try/catch to 500), R2 put, then KV put. The
status is `none` when a storage rejection escapes the handler. -/
def workerGenerate (authOk : Bool) (bump : String) (current : VersionMeta)
    (genOk blobOk kvOk : Bool) : List StoreEv × Option Nat :=
  if !authOk then ([], some 401)
  else if !validBump bump then ([], some 400)
  else
    let next := bumpVersion current bump
    if !genOk then ([], some 500)
    else if !blobOk then ([], none)
    else if !kvOk then ([StoreEv.blobPut (r2Key (verString next))], none)
    else ([StoreEv.blobPut (r2Key (verString next)), StoreEv.versionPut next],
      some 200)

/-! ### Unit converter (part_003 line 31)

`cmToPt(val) = parseFloat(val) * 28.35`. ECMA-262 `parseFloat` skips
leading whitespace, then reads the longest decimal literal: optional
sign, digits, optional fraction, optional exponent; with no such literal
the result is NaN, which the model renders as `none` (the `Infinity`
literal is outside the model, see the header). -/

/-- Value of a digit string, most significant first. -/
def digitsValFrom (acc : Nat) : List Char → Nat
  | [] => acc
  | c :: cs => digitsValFrom (acc * 10 + (c.toNat - 48)) cs

def digitsVal (ds : List Char) : Nat := digitsValFrom 0 ds

/-- Optional sign, as its factor and the remaining input. -/
def signSplit (cs : List Char) : ℚ × List Char :=
  match cs with
  | [] => (1, [])
  | c :: t =>
    if c = '+' then (1, t)
    else if c = '-' then (-1, t)
    else (1, c :: t)

/-- Optional fraction: digits after a leading dot. -/
def fracSplit (cs : List Char) : List Char × List Char :=
  match cs with
  | [] => ([], [])
  | c :: t => if c = '.' then spanP isDigitCh t else ([], c :: t)

/-- Exponent tail after `e`/`E`: optional sign and digits; with no digits
the exponent marker is not part of the literal and contributes 0. -/
def expTail (t : List Char) : Int :=
  let sgn : Int × List Char :=
    match t with
    | [] => (1, [])
    | c :: u =>
      if c = '+' then (1, u)
      else if c = '-' then (-1, u)
      else (1, c :: u)
  let dq := spanP isDigitCh sgn.2
  if dq.1.isEmpty then 0 else sgn.1 * (digitsVal dq.1 : Int)

/-- Optional exponent part. -/
def expVal (cs : List Char) : Int :=
  match cs with
  | [] => 0
  | c :: t => if c = 'e' ∨ c = 'E' then expTail t else 0

/-- JS `parseFloat` over the rationals; `none` models NaN. -/
def jsParseFloat (s : String) : Option ℚ :=
  let cs0 := s.toList.dropWhile isJsSpace
  let sg := signSplit cs0
  let ip := spanP isDigitCh sg.2
  let fp := fracSplit ip.2
  if ip.1.isEmpty && fp.1.isEmpty then none
  else
    let mant : ℚ := (digitsVal ip.1 : ℚ) + (digitsVal fp.1 : ℚ) / (10 : ℚ) ^ fp.1.length
    some (sg.1 * mant * (10 : ℚ) ^ expVal fp.2)

/-- Unit converter: `parseFloat(val) * 28.35` (28.35 = 567/20 points/cm). -/
def cmToPt (val : String) : Option ℚ :=
  (jsParseFloat val).map (fun q => q * (567 / 20))

/-- Decides whether a string has a parseable leading number in the JS
sense: after whitespace and an optional sign, a digit, a dot followed by
a digit, or the `Infinity` literal. -/
def hasLeadNum (s : String) : Bool :=
  let cs1 := (signSplit (s.toList.dropWhile isJsSpace)).2
  startsList "Infinity".toList cs1 ||
  (match cs1 with
   | [] => false
   | c :: t =>
     if c = '.' then
       match t with
       | [] => false
       | d :: _ => isDigitCh d
     else isDigitCh c)

/-! ### Shared sample data for the concrete witnesses -/

/-- Sample layout configuration with distinct small rational values. -/
def sampleCfg : OverlayCfg :=
  ⟨10, 8, 5, 6, 2, 1, "// ", (0, 0, 0), (1, 1, 1), (0, 0, 0)⟩

/-- Monospace-like width oracle used in witnesses. -/
def sampleWidth : String → ℚ → ℚ := fun s k => (s.length : ℚ) * k

/-- Sample sorted Section Map. -/
def sampleMap : List SectionMarker :=
  [⟨"01", "INIT.SYS", 3⟩, ⟨"02", "KERNEL", 7⟩]

/-! ### Claims -/

/-- C3: for every list of per-page texts scanned in increasing page order,
the Section Map has non-decreasing `startPage` values and the final stable
sort is a no-op, so entries with equal `startPage` keep discovery order. -/
theorem extractSectionMap_sorted_stable (pages : List String) :
    extractSectionMap pages = rawEntries pages ∧
    List.Pairwise (fun a b => a.startPage ≤ b.startPage)
      (extractSectionMap pages) := by
  refine ⟨extractSectionMap_eq_raw pages, ?_⟩
  rw [extractSectionMap_eq_raw]
  exact rawEntriesFrom_pairwise 1 pages

/-- C7: bump rules: `major` increments major and zeroes minor and patch,
`minor` increments minor and zeroes patch, `patch` increments patch; in
particular on `1.2.3` they give `2.0.0`, `1.3.0` and `1.2.4`. -/
theorem bumpVersion_rules (v : VersionMeta) :
    bumpVersion v "major" = ⟨v.major + 1, 0, 0⟩ ∧
    bumpVersion v "minor" = ⟨v.major, v.minor + 1, 0⟩ ∧
    bumpVersion v "patch" = ⟨v.major, v.minor, v.patch + 1⟩ ∧
    bumpVersion ⟨1, 2, 3⟩ "major" = ⟨2, 0, 0⟩ ∧
    bumpVersion ⟨1, 2, 3⟩ "minor" = ⟨1, 3, 0⟩ ∧
    bumpVersion ⟨1, 2, 3⟩ "patch" = ⟨1, 2, 4⟩ := by
  refine ⟨by simp [bumpVersion], by simp [bumpVersion], by simp [bumpVersion],
    by simp [bumpVersion], by simp [bumpVersion], by simp [bumpVersion]⟩

/-- C10: `bumpVersion` is total over the bump string with a silent
fallthrough: every value other than `major` and `minor` yields the patch
increment with no error; invalid kinds are rejected only at the call
boundary (the worker answers 400 before any work). -/
theorem bumpVersion_fallthrough :
    (∀ (v : VersionMeta) (b : String), b ≠ "major" → b ≠ "minor" →
      bumpVersion v b = ⟨v.major, v.minor, v.patch + 1⟩) ∧
    (∀ (b : String) (cur : VersionMeta) (genOk blobOk kvOk : Bool),
      validBump b = false →
      workerGenerate true b cur genOk blobOk kvOk = ([], some 400)) ∧
    (∀ b : String, validBump b = false →
      b ≠ "major" ∧ b ≠ "minor" ∧ b ≠ "patch") := by
  refine ⟨?_, ?_, ?_⟩
  · intro v b h1 h2
    simp [bumpVersion, h1, h2]
  · intro b cur genOk blobOk kvOk h
    simp [workerGenerate, h]
  · intro b h
    have h' : (¬b = "major" ∧ ¬b = "minor") ∧ ¬b = "patch" := by
      simpa [validBump, Bool.or_eq_false_iff, decide_eq_false_iff_not] using h
    exact ⟨h'.1.1, h'.1.2, h'.2⟩

theorem bumpVersion_fallthrough_witness :
    bumpVersion ⟨1, 2, 3⟩ "banana" = ⟨1, 2, 4⟩ ∧
    workerGenerate true "banana" ⟨0, 0, 0⟩ true true true = ([], some 400) :=
  ⟨bumpVersion_fallthrough.1 ⟨1, 2, 3⟩ "banana" (by decide) (by decide),
    bumpVersion_fallthrough.2.1 "banana" ⟨0, 0, 0⟩ true true true (by decide)⟩

/-- C8: in both publish paths the version store is written only after the
blob write succeeded (the trace then is exactly blob write before version
write), and a failed blob write leaves the trace without any version
write: a version pointer to a missing blob is never created. -/
theorem version_write_after_blob (version : String) (next : VersionMeta)
    (blobOk kvOk authOk genOk : Bool) (bump : String) (cur : VersionMeta) :
    (∀ v, StoreEv.versionPut v ∈ (scriptPublishTail version next blobOk kvOk).1 →
      blobOk = true ∧
      (scriptPublishTail version next blobOk kvOk).1 =
        [StoreEv.blobPut (r2Key version), StoreEv.versionPut v]) ∧
    (blobOk = false → (scriptPublishTail version next blobOk kvOk).1 = []) ∧
    (∀ v, StoreEv.versionPut v ∈ (workerGenerate authOk bump cur genOk blobOk kvOk).1 →
      blobOk = true ∧
      (workerGenerate authOk bump cur genOk blobOk kvOk).1 =
        [StoreEv.blobPut (r2Key (verString v)), StoreEv.versionPut v]) ∧
    (blobOk = false → (workerGenerate authOk bump cur genOk blobOk kvOk).1 = []) := by
  refine ⟨?_, ?_, ?_, ?_⟩
  · intro v hv
    cases blobOk with
    | false => simp [scriptPublishTail] at hv
    | true =>
      cases kvOk with
      | false => simp [scriptPublishTail] at hv
      | true =>
        simp only [scriptPublishTail, Bool.not_true, Bool.false_eq_true,
          if_false, List.mem_cons, List.not_mem_nil, or_false] at hv
        rcases hv with hv | hv
        · exact absurd hv (by simp)
        · have : v = next := by
            injection hv
          subst this
          exact ⟨rfl, rfl⟩
  · intro hb
    subst hb
    simp [scriptPublishTail]
  · intro v hv
    cases authOk with
    | false => simp [workerGenerate] at hv
    | true =>
      by_cases hvb : validBump bump = true
      · cases genOk with
        | false => simp [workerGenerate, hvb] at hv
        | true =>
          cases blobOk with
          | false => simp [workerGenerate, hvb] at hv
          | true =>
            cases kvOk with
            | false => simp [workerGenerate, hvb] at hv
            | true =>
              simp only [workerGenerate, hvb, Bool.not_true, Bool.false_eq_true,
                if_false, List.mem_cons, List.not_mem_nil, or_false] at hv
              rcases hv with hv | hv
              · exact absurd hv (by simp)
              · have : v = bumpVersion cur bump := by
                  injection hv
                subst this
                refine ⟨rfl, ?_⟩
                simp [workerGenerate, hvb]
      · have hvb' : validBump bump = false := by
          simpa using hvb
        simp [workerGenerate, hvb'] at hv
  · intro hb
    subst hb
    cases authOk <;> by_cases hvb : validBump bump = true <;>
      cases genOk <;> simp [workerGenerate, hvb]

theorem version_write_after_blob_witness :
    (scriptPublishTail "1.0.0" ⟨1, 0, 0⟩ false true).1 = [] ∧
    (workerGenerate true "patch" ⟨0, 0, 0⟩ true false true).1 = [] := by
  have h := version_write_after_blob "1.0.0" ⟨1, 0, 0⟩ false true true true
    "patch" ⟨0, 0, 0⟩
  exact ⟨h.2.1 rfl, h.2.2.2 rfl⟩

/-- C6: a page whose number has no label in the Section Map (the cover,
or every page when the map is empty) gets no overlay at all: the overlay
issues no draw operations and the page is unchanged. -/
theorem overlay_skips_unlabeled (cfg : OverlayCfg) (widthOf : String → ℚ → ℚ)
    (version : String) (sectionMap : List SectionMarker) (pageNum : Nat)
    (pg : Page) (h : getLabelForPage sectionMap pageNum = none) :
    overlayPage cfg widthOf version sectionMap pg.width pg.height pageNum = [] ∧
    applyOverlayToPage cfg widthOf version sectionMap pageNum pg = pg := by
  have h1 : overlayPage cfg widthOf version sectionMap pg.width pg.height pageNum
      = [] := by
    simp [overlayPage, h]
  refine ⟨h1, ?_⟩
  simp [applyOverlayToPage, h1]

theorem overlay_skips_unlabeled_witness :
    overlayPage sampleCfg sampleWidth "1.0.0" [] (100 : ℚ) (200 : ℚ) 1 = [] ∧
    applyOverlayToPage sampleCfg sampleWidth "1.0.0" [] 1 ⟨100, 200, []⟩
      = ⟨100, 200, []⟩ :=
  overlay_skips_unlabeled sampleCfg sampleWidth "1.0.0" [] 1 ⟨100, 200, []⟩ rfl

/-- C5: when the two pass page counts differ the driver only warns: the
result is still produced, the Overlay is applied to the pass-2 buffer
with the Section Map extracted from pass 1, and the pass-2 text is never
re-extracted (the result does not depend on it). -/
theorem pipeline_drift_warns_and_proceeds (cfg : OverlayCfg)
    (widthOf : String → ℚ → ℚ) (version : String) (pass1 pass2 : RenderOut)
    (h : pass1.pages.length ≠ pass2.pages.length) :
    (runPipeline cfg widthOf version pass1 pass2).warned = true ∧
    (runPipeline cfg widthOf version pass1 pass2).sectionMap =
      extractSectionMap pass1.texts ∧
    (runPipeline cfg widthOf version pass1 pass2).final =
      overlayDoc cfg widthOf version (extractSectionMap pass1.texts) pass2.pages ∧
    (∀ texts2 : List String,
      (runPipeline cfg widthOf version pass1 ⟨pass2.pages, texts2⟩).final =
        (runPipeline cfg widthOf version pass1 pass2).final) := by
  refine ⟨?_, rfl, rfl, fun texts2 => rfl⟩
  simp [runPipeline, bne_iff_ne, h]

theorem pipeline_drift_warns_and_proceeds_witness :
    (runPipeline sampleCfg sampleWidth "1.0.0" ⟨[⟨100, 200, []⟩], ["FWMARK-01-A B"]⟩
        ⟨[⟨100, 200, []⟩, ⟨100, 200, []⟩], []⟩).warned = true ∧
    (runPipeline sampleCfg sampleWidth "1.0.0" ⟨[⟨100, 200, []⟩], ["FWMARK-01-A B"]⟩
        ⟨[⟨100, 200, []⟩, ⟨100, 200, []⟩], []⟩).sectionMap =
      extractSectionMap ["FWMARK-01-A B"] ∧
    (runPipeline sampleCfg sampleWidth "1.0.0" ⟨[⟨100, 200, []⟩], ["FWMARK-01-A B"]⟩
        ⟨[⟨100, 200, []⟩, ⟨100, 200, []⟩], []⟩).final =
      overlayDoc sampleCfg sampleWidth "1.0.0"
        (extractSectionMap ["FWMARK-01-A B"]) [⟨100, 200, []⟩, ⟨100, 200, []⟩] ∧
    (∀ texts2 : List String,
      (runPipeline sampleCfg sampleWidth "1.0.0" ⟨[⟨100, 200, []⟩], ["FWMARK-01-A B"]⟩
          ⟨[⟨100, 200, []⟩, ⟨100, 200, []⟩], texts2⟩).final =
        (runPipeline sampleCfg sampleWidth "1.0.0" ⟨[⟨100, 200, []⟩], ["FWMARK-01-A B"]⟩
            ⟨[⟨100, 200, []⟩, ⟨100, 200, []⟩], []⟩).final) :=
  pipeline_drift_warns_and_proceeds sampleCfg sampleWidth "1.0.0"
    ⟨[⟨100, 200, []⟩], ["FWMARK-01-A B"]⟩
    ⟨[⟨100, 200, []⟩, ⟨100, 200, []⟩], []⟩ (by decide)

/-- C2: on a Section Map sorted by `startPage`, `getLabelForPage` returns
none exactly when no marker has `startPage ≤ p` (empty map, or `p` before
the first marker), and otherwise returns the label of a qualifying marker
of greatest `startPage`, so each marker's label applies from its own
`startPage` up to, not including, the next marker's `startPage`. -/
theorem getLabelForPage_lookup : ∀ sectionMap : List SectionMarker,
    List.Pairwise (fun a b => a.startPage ≤ b.startPage) sectionMap →
    ∀ p : Nat,
    (getLabelForPage sectionMap p = none ↔ ∀ m ∈ sectionMap, p < m.startPage) ∧
    (∀ m ∈ sectionMap, m.startPage ≤ p →
      ∃ mx ∈ sectionMap, mx.startPage ≤ p ∧
        getLabelForPage sectionMap p = some mx.label ∧
        ∀ m2 ∈ sectionMap, m2.startPage ≤ p → m2.startPage ≤ mx.startPage) := by
  intro sectionMap
  induction sectionMap with
  | nil =>
    intro _ p
    exact ⟨by simp [getLabelForPage], by simp⟩
  | cons x rest ih =>
    intro hs p
    rw [List.pairwise_cons] at hs
    obtain ⟨hx, hrest⟩ := hs
    have IH := ih hrest p
    cases hres : getLabelForPage rest p with
    | some l =>
      have hne : ¬ (∀ m ∈ rest, p < m.startPage) := by
        intro hall
        have hnone := IH.1.mpr hall
        rw [hres] at hnone
        exact Option.noConfusion hnone
      obtain ⟨mq, hmq, hmqle⟩ : ∃ m ∈ rest, m.startPage ≤ p := by
        by_contra hcon
        push_neg at hcon
        exact hne fun m hm => hcon m hm
      obtain ⟨mx, hmx, hmxle, hmxeq, hmxmax⟩ := IH.2 mq hmq hmqle
      have hlab : l = mx.label := by
        rw [hres] at hmxeq
        exact Option.some.inj hmxeq
      have hcons : getLabelForPage (x :: rest) p = some mx.label := by
        simp [getLabelForPage, hres, hlab]
      constructor
      · constructor
        · intro h0
          rw [hcons] at h0
          exact Option.noConfusion h0
        · intro hall
          exact absurd (fun m hm => hall m (by simp [hm])) hne
      · intro m hm hmle
        refine ⟨mx, by simp [hmx], hmxle, hcons, ?_⟩
        intro m2 hm2 hm2le
        rcases List.mem_cons.mp hm2 with rfl | hm2r
        · exact hx mx hmx
        · exact hmxmax m2 hm2r hm2le
    | none =>
      have hall : ∀ m ∈ rest, p < m.startPage := IH.1.mp hres
      by_cases hxp : x.startPage ≤ p
      · have hcons : getLabelForPage (x :: rest) p = some x.label := by
          simp [getLabelForPage, hres, hxp]
        constructor
        · constructor
          · intro h0
            rw [hcons] at h0
            exact Option.noConfusion h0
          · intro hallc
            exact absurd hxp (Nat.not_le_of_lt (hallc x (by simp)))
        · intro m hm hmle
          refine ⟨x, by simp, hxp, hcons, ?_⟩
          intro m2 hm2 hm2le
          rcases List.mem_cons.mp hm2 with rfl | hm2r
          · exact le_refl _
          · exact absurd hm2le (Nat.not_le_of_lt (hall m2 hm2r))
      · have hcons : getLabelForPage (x :: rest) p = none := by
          simp [getLabelForPage, hres, hxp]
        constructor
        · constructor
          · intro _ m hm
            rcases List.mem_cons.mp hm with rfl | hmr
            · exact Nat.lt_of_not_le hxp
            · exact hall m hmr
          · intro _
            exact hcons
        · intro m hm hmle
          rcases List.mem_cons.mp hm with rfl | hmr
          · exact absurd hmle hxp
          · exact absurd hmle (Nat.not_le_of_lt (hall m hmr))

theorem getLabelForPage_lookup_witness :
    (getLabelForPage sampleMap 5 = none ↔ ∀ m ∈ sampleMap, 5 < m.startPage) ∧
    (∀ m ∈ sampleMap, m.startPage ≤ 5 →
      ∃ mx ∈ sampleMap, mx.startPage ≤ 5 ∧
        getLabelForPage sampleMap 5 = some mx.label ∧
        ∀ m2 ∈ sampleMap, m2.startPage ≤ 5 → m2.startPage ≤ mx.startPage) :=
  getLabelForPage_lookup sampleMap (by decide) 5

/-- C4: on two pages with the same section label and version string, one
odd (recto) and one even (verso), the header is mirrored: the recto draws
the section label right-aligned at the right margin and the version
string at the left margin, the verso swaps the two (section label at the
left margin, version string right-aligned at the right margin), so the
occupied margin positions of the two strings are exchanged — the
right-aligned right edges coincide, the left-aligned x coordinates
coincide, and with equal text widths the drawn x coordinates are swapped
literally; the page number is right-aligned on the recto and at the left
margin on the verso. -/
theorem overlay_recto_verso_mirror (cfg : OverlayCfg)
    (widthOf : String → ℚ → ℚ) (version : String)
    (sectionMap : List SectionMarker) (W H : ℚ) (p q : Nat) (L : String)
    (hp : p % 2 = 1) (hq : q % 2 = 0)
    (hlp : getLabelForPage sectionMap p = some L)
    (hlq : getLabelForPage sectionMap q = some L) :
    textXs (overlayPage cfg widthOf version sectionMap W H p) =
      [(cfg.sectionPref ++ L,
          W - cfg.sideMarginPt - widthOf (cfg.sectionPref ++ L) cfg.hFontSize),
        ("v" ++ version, cfg.sideMarginPt),
        (toString p,
          W - cfg.sideMarginPt - widthOf (toString p) cfg.pnFontSize)] ∧
    textXs (overlayPage cfg widthOf version sectionMap W H q) =
      [(cfg.sectionPref ++ L, cfg.sideMarginPt),
        ("v" ++ version,
          W - cfg.sideMarginPt - widthOf ("v" ++ version) cfg.hFontSize),
        (toString q, cfg.sideMarginPt)] ∧
    (W - cfg.sideMarginPt - widthOf (cfg.sectionPref ++ L) cfg.hFontSize)
        + widthOf (cfg.sectionPref ++ L) cfg.hFontSize
      = (W - cfg.sideMarginPt - widthOf ("v" ++ version) cfg.hFontSize)
        + widthOf ("v" ++ version) cfg.hFontSize ∧
    (widthOf (cfg.sectionPref ++ L) cfg.hFontSize
        = widthOf ("v" ++ version) cfg.hFontSize →
      W - cfg.sideMarginPt - widthOf (cfg.sectionPref ++ L) cfg.hFontSize
        = W - cfg.sideMarginPt - widthOf ("v" ++ version) cfg.hFontSize) := by
  have hrec : (p % 2 == 1) = true := by simp [hp]
  have hver : (q % 2 == 1) = false := by simp [hq]
  refine ⟨?_, ?_, by ring, fun h => by rw [h]⟩
  · simp [overlayPage, hlp, hrec, textXs]
  · simp [overlayPage, hlq, hver, textXs]

theorem overlay_recto_verso_mirror_witness :
    textXs (overlayPage sampleCfg sampleWidth "1.0.0" sampleMap 100 200 3) =
      [(sampleCfg.sectionPref ++ "INIT.SYS",
          100 - sampleCfg.sideMarginPt -
            sampleWidth (sampleCfg.sectionPref ++ "INIT.SYS") sampleCfg.hFontSize),
        ("v" ++ "1.0.0", sampleCfg.sideMarginPt),
        (toString 3,
          100 - sampleCfg.sideMarginPt -
            sampleWidth (toString 3) sampleCfg.pnFontSize)] ∧
    textXs (overlayPage sampleCfg sampleWidth "1.0.0" sampleMap 100 200 4) =
      [(sampleCfg.sectionPref ++ "INIT.SYS", sampleCfg.sideMarginPt),
        ("v" ++ "1.0.0",
          100 - sampleCfg.sideMarginPt -
            sampleWidth ("v" ++ "1.0.0") sampleCfg.hFontSize),
        (toString 4, sampleCfg.sideMarginPt)] ∧
    (100 - sampleCfg.sideMarginPt -
          sampleWidth (sampleCfg.sectionPref ++ "INIT.SYS") sampleCfg.hFontSize)
        + sampleWidth (sampleCfg.sectionPref ++ "INIT.SYS") sampleCfg.hFontSize
      = (100 - sampleCfg.sideMarginPt -
          sampleWidth ("v" ++ "1.0.0") sampleCfg.hFontSize)
        + sampleWidth ("v" ++ "1.0.0") sampleCfg.hFontSize ∧
    (sampleWidth (sampleCfg.sectionPref ++ "INIT.SYS") sampleCfg.hFontSize
        = sampleWidth ("v" ++ "1.0.0") sampleCfg.hFontSize →
      100 - sampleCfg.sideMarginPt -
          sampleWidth (sampleCfg.sectionPref ++ "INIT.SYS") sampleCfg.hFontSize
        = 100 - sampleCfg.sideMarginPt -
          sampleWidth ("v" ++ "1.0.0") sampleCfg.hFontSize) :=
  overlay_recto_verso_mirror sampleCfg sampleWidth "1.0.0" sampleMap 100 200
    3 4 "INIT.SYS" (by decide) (by decide) (by decide) (by decide)

/-- C1 (amended): for every list of per-page text strings the Marker
Extractor records an entry with id, resolved label (the captured label if
present, else the table-of-contents title for the TOC id, else the id)
and the 1-indexed page, for each occurrence of a well-formed token
`FWMARK-` + word-character id (alphanumeric or underscore), optionally
`-` + uppercase/digit/dot/underscore label, terminated by whitespace or
end of string; malformed tokens produce no entry. Stated as equality to
the declarative grammar over the word-character id class. -/
theorem extractSectionMap_matches_grammar (pages : List String) :
    extractSectionMap pages = specExtract isWordChar pages := by
  have hpage : ∀ (pn : Nat) (t : String),
      pageEntries pn t = specPageEntries isWordChar pn t := by
    intro pn t
    rw [pageEntries, specPageEntries, scanMarkers_eq_specScan]
  have hraw : ∀ (pn : Nat) (ts : List String),
      rawEntriesFrom pn ts = specRawFrom isWordChar pn ts := by
    intro pn ts
    induction ts generalizing pn with
    | nil => rfl
    | cons t ts ih => rw [rawEntriesFrom, specRawFrom, hpage, ih]
  rw [extractSectionMap, specExtract, rawEntries, hraw]

/-- C1 counterexample to the claim as stated: under the claim's strictly
alphanumeric id class the text `FWMARK-A_1` contains no well-formed token
(the underscore ends the id and is not a label separator), so no entry
may be recorded; the code's `\w` id class records the entry `A_1`. -/
theorem extractSectionMap_underscore_id_counterexample :
    extractSectionMap ["FWMARK-A_1"] = [⟨"A_1", "A_1", 1⟩] ∧
    specExtract isAlnumChar ["FWMARK-A_1"] = [] ∧
    extractSectionMap ["FWMARK-A_1"] ≠ specExtract isAlnumChar ["FWMARK-A_1"] := by
  have h1 : extractSectionMap ["FWMARK-A_1"] = [⟨"A_1", "A_1", 1⟩] := by decide
  have h2 : specExtract isAlnumChar ["FWMARK-A_1"] = [] := by decide
  refine ⟨h1, h2, ?_⟩
  rw [h1, h2]
  simp

/-! ### Behaviour of the `parseFloat` model on digit literals -/

theorem asString_data (l : List Char) : l.asString.data = l := rfl

theorem jsParseFloat_digits (ip rest : List Char) (hne : ip ≠ [])
    (hdig : ∀ c ∈ ip, isDigitCh c = true)
    (hspan : spanP isDigitCh rest = ([], rest))
    (hfrac : fracSplit rest = ([], rest))
    (hexp : expVal rest = 0) :
    jsParseFloat (ip ++ rest).asString = some (digitsVal ip : ℚ) := by
  obtain ⟨d, ip', rfl⟩ : ∃ d ip', ip = d :: ip' := by
    cases ip with
    | nil => exact absurd rfl hne
    | cons d t => exact ⟨d, t, rfl⟩
  have hd : isDigitCh d = true := hdig d (by simp)
  have hds : isJsSpace d = false := isWordChar_not_space (isDigitCh_isWordChar hd)
  have hplus : ¬ d = '+' := fun h => by rw [h] at hd; exact absurd hd (by decide)
  have hminus : ¬ d = '-' := fun h => by rw [h] at hd; exact absurd hd (by decide)
  have hdw : List.dropWhile isJsSpace (d :: (ip' ++ rest)) = d :: (ip' ++ rest) := by
    rw [List.dropWhile_cons, if_neg (by simp [hds])]
  have hsign : signSplit (d :: (ip' ++ rest)) = (1, d :: (ip' ++ rest)) := by
    simp [signSplit, hplus, hminus]
  have hsp : spanP isDigitCh (d :: (ip' ++ rest)) = (d :: ip', rest) := by
    have h := spanP_append_eq isDigitCh (d :: ip') rest hdig hspan
    simpa using h
  have hdv : digitsVal ([] : List Char) = 0 := rfl
  simp [jsParseFloat, asString_data, hdw, hsign, hsp, hfrac, hexp, hdv]

theorem jsParseFloat_digits_frac (ip fp rest : List Char) (hne : ip ≠ [])
    (hdig : ∀ c ∈ ip, isDigitCh c = true) (hfp : ∀ c ∈ fp, isDigitCh c = true)
    (hspanR : spanP isDigitCh rest = ([], rest))
    (hexp : expVal rest = 0) :
    jsParseFloat (ip ++ '.' :: (fp ++ rest)).asString =
      some ((digitsVal ip : ℚ) + (digitsVal fp : ℚ) / (10 : ℚ) ^ fp.length) := by
  obtain ⟨d, ip', rfl⟩ : ∃ d ip', ip = d :: ip' := by
    cases ip with
    | nil => exact absurd rfl hne
    | cons d t => exact ⟨d, t, rfl⟩
  have hd : isDigitCh d = true := hdig d (by simp)
  have hds : isJsSpace d = false := isWordChar_not_space (isDigitCh_isWordChar hd)
  have hplus : ¬ d = '+' := fun h => by rw [h] at hd; exact absurd hd (by decide)
  have hminus : ¬ d = '-' := fun h => by rw [h] at hd; exact absurd hd (by decide)
  have hdw : List.dropWhile isJsSpace (d :: (ip' ++ '.' :: (fp ++ rest)))
      = d :: (ip' ++ '.' :: (fp ++ rest)) := by
    rw [List.dropWhile_cons, if_neg (by simp [hds])]
  have hsign : signSplit (d :: (ip' ++ '.' :: (fp ++ rest)))
      = (1, d :: (ip' ++ '.' :: (fp ++ rest))) := by
    simp [signSplit, hplus, hminus]
  have hsp : spanP isDigitCh (d :: (ip' ++ '.' :: (fp ++ rest)))
      = (d :: ip', '.' :: (fp ++ rest)) := by
    have hdot : spanP isDigitCh ('.' :: (fp ++ rest)) = ([], '.' :: (fp ++ rest)) :=
      spanP_nil_of_not _ _ (by decide)
    have h := spanP_append_eq isDigitCh (d :: ip') ('.' :: (fp ++ rest)) hdig hdot
    simpa using h
  have hfrac : fracSplit ('.' :: (fp ++ rest)) = (fp, rest) := by
    have h1 : fracSplit ('.' :: (fp ++ rest)) = spanP isDigitCh (fp ++ rest) := by
      simp [fracSplit]
    rw [h1, spanP_append_eq isDigitCh fp rest hfp hspanR]
  simp [jsParseFloat, asString_data, hdw, hsign, hsp, hfrac, hexp]

theorem jsParseFloat_none (s : String) (h : hasLeadNum s = false) :
    jsParseFloat s = none := by
  simp only [hasLeadNum] at h
  rw [Bool.or_eq_false_iff] at h
  obtain ⟨hInf, hm⟩ := h
  simp only [jsParseFloat]
  cases hcs : (signSplit (List.dropWhile isJsSpace s.toList)).2 with
  | nil =>
    have hsp0 : spanP isDigitCh ([] : List Char) = ([], []) := rfl
    have hfr0 : fracSplit ([] : List Char) = ([], []) := rfl
    simp [hcs, hsp0, hfr0]
  | cons c t =>
    rw [hcs] at hm
    by_cases hc : c = '.'
    · subst hc
      simp only [if_pos rfl] at hm
      have hsp' : spanP isDigitCh ('.' :: t) = ([], '.' :: t) :=
        spanP_nil_of_not _ _ (by decide)
      cases t with
      | nil =>
        have hfr : fracSplit (['.'] : List Char) = ([], []) := rfl
        simp [hcs, hsp', hfr]
      | cons e t' =>
        have he : isDigitCh e = false := by simpa using hm
        have hfrac : fracSplit ('.' :: e :: t') = ([], e :: t') := by
          have h1 : fracSplit ('.' :: e :: t') = spanP isDigitCh (e :: t') := by
            simp [fracSplit]
          rw [h1, spanP_nil_of_not _ _ he]
        simp [hcs, hsp', hfrac]
    · have hm' : isDigitCh c = false := by simpa [hc] using hm
      have hsp' : spanP isDigitCh (c :: t) = ([], c :: t) :=
        spanP_nil_of_not _ _ hm'
      have hfrac : fracSplit (c :: t) = ([], c :: t) := by
        simp [fracSplit, hc]
      simp [hcs, hsp', hfrac]

/-- C9: `cmToPt` parses the numeric magnitude of a length string with a
`cm` suffix and multiplies it by the constant 28.35 = 567/20; on every
string with no parseable leading number (after optional whitespace and
sign, no digit, no dot-digit, no `Infinity`) it produces no number (the
JS NaN, `none` in the model). -/
theorem cmToPt_spec :
    (∀ ip : List Char, ip ≠ [] → (∀ c ∈ ip, isDigitCh c = true) →
      cmToPt (ip ++ "cm".toList).asString =
        some ((digitsVal ip : ℚ) * (567 / 20))) ∧
    (∀ ip fp : List Char, ip ≠ [] → (∀ c ∈ ip, isDigitCh c = true) →
      (∀ c ∈ fp, isDigitCh c = true) →
      cmToPt (ip ++ '.' :: (fp ++ "cm".toList)).asString =
        some (((digitsVal ip : ℚ) + (digitsVal fp : ℚ) / (10 : ℚ) ^ fp.length)
          * (567 / 20))) ∧
    (∀ s : String, hasLeadNum s = false → cmToPt s = none) := by
  refine ⟨?_, ?_, ?_⟩
  · intro ip hne hdig
    rw [cmToPt, jsParseFloat_digits ip "cm".toList hne hdig (by decide) (by decide)
      (by decide)]
    rfl
  · intro ip fp hne hdig hfp
    rw [cmToPt, jsParseFloat_digits_frac ip fp "cm".toList hne hdig hfp (by decide)
      (by decide)]
    rfl
  · intro s h
    rw [cmToPt, jsParseFloat_none s h]
    rfl

theorem cmToPt_spec_witness :
    cmToPt ((['1'] ++ '.' :: (['5'] ++ "cm".toList)).asString) =
      some (((digitsVal ['1'] : ℚ) + (digitsVal ['5'] : ℚ) /
        (10 : ℚ) ^ (['5'] : List Char).length) * (567 / 20)) ∧
    cmToPt "foo" = none := by
  constructor
  · exact cmToPt_spec.2.1 ['1'] ['5'] (by decide) (by decide) (by decide)
  · exact cmToPt_spec.2.2 "foo" (by decide)
